import Mathlib

/-!
Shallow embedding of the recurrence-rule engine of the todo task service
(`internal/usecase/task_usecase.go`): the `calculateNextDate` family of
functions together with the date arithmetic of Go's `time` package that
they use.

Calendar dates are embedded as civil `(year, month, day)` triples;
`time.Date`'s field normalization is embedded by `normDayFix` / `normDate`
(Go normalizes out-of-range fields by converting through an absolute day
count, which is the same date arithmetic); an instant (`time.Time`) is a
normalized date plus a time-of-day component (`tod`, with `0` = midnight,
in an arbitrary sub-day unit).  Instants are ordered through `toDays`,
the day count since 0001-01-01 of the proleptic Gregorian calendar —
exactly the day count Go's `time` package uses internally, so
`Before`/`After`/`Equal` on instants are embedded as lexicographic
comparisons of `(toDays, tod)`.

`buildDateMap` in the source reads `time.Now().Year()` — an ambient
input independent of the `now` argument; it is made explicit here as the
`wallYear` parameter.

A Go runtime panic (slice index out of range) is embedded as the
distinguished result `Outcome.panicked`.  The unbounded `for` loops of
the source are embedded with an explicit fuel parameter (`loopIter`);
`none` means the fuel ran out with the loop still running.
-/

namespace TaskUsecase

/-- Calendar date: the civil triple carried by Go's `time.Time`. -/
structure Date where
  year : Int
  month : Int
  day : Int
deriving DecidableEq

/-- Gregorian leap-year rule, as used by Go's `time` package. -/
def isLeap (y : Int) : Bool := y % 4 == 0 && (y % 100 != 0 || y % 400 == 0)

/-- Number of days of month `m` of year `y` (arguments outside `[1,12]`
fall through to 31; they never occur on normalized dates). -/
def daysIn (y m : Int) : Int :=
  if m = 2 then (if isLeap y then 29 else 28)
  else if m = 4 ∨ m = 6 ∨ m = 9 ∨ m = 11 then 30
  else 31

/-- Cumulative days before month `m` in a non-leap year. -/
def monthsBefore (m : Int) : Int :=
  if m ≤ 1 then 0 else if m = 2 then 31 else if m = 3 then 59
  else if m = 4 then 90 else if m = 5 then 120 else if m = 6 then 151
  else if m = 7 then 181 else if m = 8 then 212 else if m = 9 then 243
  else if m = 10 then 273 else if m = 11 then 304 else 334

/-- Day number of Jan 1 of year `y`, with day 0 = 0001-01-01 (Go's
absolute day count). -/
def yearStart (y : Int) : Int :=
  365 * (y - 1) + (y - 1) / 4 - (y - 1) / 100 + (y - 1) / 400

/-- Day number of a civil date (meaningful on valid dates). -/
def toDays (dt : Date) : Int :=
  yearStart dt.year + monthsBefore dt.month
    + (if 2 < dt.month ∧ isLeap dt.year then 1 else 0) + dt.day - 1

/-- A well-formed civil date. -/
def Date.Valid (dt : Date) : Prop :=
  1 ≤ dt.month ∧ dt.month ≤ 12 ∧ 1 ≤ dt.day ∧ dt.day ≤ daysIn dt.year dt.month

instance (dt : Date) : Decidable dt.Valid := by
  unfold Date.Valid; infer_instance

theorem daysIn_bounds (y m : Int) : 28 ≤ daysIn y m ∧ daysIn y m ≤ 31 := by
  unfold daysIn; split_ifs <;> norm_num

/-- Month normalization of Go's `time.Date`: the year after bringing the
month into `[1,12]`. -/
def normY (y m : Int) : Int := y + (m - 1) / 12

/-- Month normalization of Go's `time.Date`: the month brought into
`[1,12]`. -/
def normM (m : Int) : Int := (m - 1) % 12 + 1

/-- Termination measure of the day-normalization recursion: it shrinks
at every borrow/carry step. -/
def msr (e : Int) : Nat := if e < 1 then (1 - e).toNat + 62 else e.toNat

/-- Day normalization of Go's `time.Date`, fuel-indexed so that it is
structurally recursive (the fuel is immaterial once it exceeds `msr e`,
see `normDayFixF_congr`): starting from month `m` (expected in `[1,12]`)
of year `y`, move the out-of-range day count `e` into an actual month,
borrowing/carrying whole months. -/
def normDayFixF : Nat → Int → Int → Int → Date
  | 0, y, m, e => ⟨y, m, e⟩
  | fuel + 1, y, m, e =>
    if e < 1 then
      (if m = 1 then normDayFixF fuel (y - 1) 12 (e + daysIn (y - 1) 12)
       else normDayFixF fuel y (m - 1) (e + daysIn y (m - 1)))
    else if daysIn y m < e then
      (if m = 12 then normDayFixF fuel (y + 1) 1 (e - daysIn y m)
       else normDayFixF fuel y (m + 1) (e - daysIn y m))
    else ⟨y, m, e⟩

lemma msr_pos (e : Int) : 1 ≤ msr e := by
  unfold msr
  split_ifs <;> omega

lemma msr_dec_up (e D : Int) (h1 : e < 1) (hD : 28 ≤ D ∧ D ≤ 31) :
    msr (e + D) < msr e := by
  unfold msr
  split_ifs <;> omega

lemma msr_dec_down (e D : Int) (h1 : ¬ e < 1) (h2 : D < e) (hD : 28 ≤ D ∧ D ≤ 31) :
    msr (e - D) < msr e := by
  unfold msr
  split_ifs <;> omega

lemma normDayFixF_congr (n : Nat) : ∀ (y m e : Int), msr e ≤ n →
    ∀ fuel fuel' : Nat, msr e < fuel → msr e < fuel' →
      normDayFixF fuel y m e = normDayFixF fuel' y m e := by
  induction n with
  | zero =>
    intro y m e hle
    have := msr_pos e
    omega
  | succ n ih =>
    intro y m e hle fuel fuel' hf hf'
    obtain ⟨f, rfl⟩ : ∃ f, fuel = f + 1 := ⟨fuel - 1, by omega⟩
    obtain ⟨f', rfl⟩ : ∃ f', fuel' = f' + 1 := ⟨fuel' - 1, by omega⟩
    rw [normDayFixF, normDayFixF]
    by_cases h1 : e < 1
    · rw [if_pos h1, if_pos h1]
      by_cases h2 : m = 1
      · rw [if_pos h2, if_pos h2]
        have hd := msr_dec_up e (daysIn (y - 1) 12) h1 (daysIn_bounds (y - 1) 12)
        exact ih (y - 1) 12 (e + daysIn (y - 1) 12) (by omega) f f' (by omega) (by omega)
      · rw [if_neg h2, if_neg h2]
        have hd := msr_dec_up e (daysIn y (m - 1)) h1 (daysIn_bounds y (m - 1))
        exact ih y (m - 1) (e + daysIn y (m - 1)) (by omega) f f' (by omega) (by omega)
    · rw [if_neg h1, if_neg h1]
      by_cases h3 : daysIn y m < e
      · rw [if_pos h3, if_pos h3]
        have hdb := daysIn_bounds y m
        have hd := msr_dec_down e (daysIn y m) h1 h3 hdb
        by_cases h2 : m = 12
        · rw [if_pos h2, if_pos h2]
          exact ih (y + 1) 1 (e - daysIn y m) (by omega) f f' (by omega) (by omega)
        · rw [if_neg h2, if_neg h2]
          exact ih y (m + 1) (e - daysIn y m) (by omega) f f' (by omega) (by omega)
      · rw [if_neg h3, if_neg h3]

/-- Day normalization of Go's `time.Date` (with just enough fuel). -/
def normDayFix (y m e : Int) : Date := normDayFixF (msr e + 1) y m e

/-- The defining recursion of `normDayFix`. -/
lemma normDayFix_eq (y m e : Int) :
    normDayFix y m e =
      (if e < 1 then
        (if m = 1 then normDayFix (y - 1) 12 (e + daysIn (y - 1) 12)
         else normDayFix y (m - 1) (e + daysIn y (m - 1)))
      else if daysIn y m < e then
        (if m = 12 then normDayFix (y + 1) 1 (e - daysIn y m)
         else normDayFix y (m + 1) (e - daysIn y m))
      else ⟨y, m, e⟩) := by
  unfold normDayFix
  rw [normDayFixF]
  by_cases h1 : e < 1
  · rw [if_pos h1, if_pos h1]
    by_cases h2 : m = 1
    · rw [if_pos h2, if_pos h2]
      have hd := msr_dec_up e (daysIn (y - 1) 12) h1 (daysIn_bounds (y - 1) 12)
      exact normDayFixF_congr (msr e) (y - 1) 12 _ (by omega) _ _ (by omega) (by omega)
    · rw [if_neg h2, if_neg h2]
      have hd := msr_dec_up e (daysIn y (m - 1)) h1 (daysIn_bounds y (m - 1))
      exact normDayFixF_congr (msr e) y (m - 1) _ (by omega) _ _ (by omega) (by omega)
  · rw [if_neg h1, if_neg h1]
    by_cases h3 : daysIn y m < e
    · rw [if_pos h3, if_pos h3]
      have hd := msr_dec_down e (daysIn y m) h1 h3 (daysIn_bounds y m)
      by_cases h2 : m = 12
      · rw [if_pos h2, if_pos h2]
        exact normDayFixF_congr (msr e) (y + 1) 1 _ (by omega) _ _ (by omega) (by omega)
      · rw [if_neg h2, if_neg h2]
        exact normDayFixF_congr (msr e) y (m + 1) _ (by omega) _ _ (by omega) (by omega)
    · rw [if_neg h3, if_neg h3]

/-- Go `time.Date(y, m, d, …)`, date component: full field
normalization. -/
def normDate (y m d : Int) : Date := normDayFix (normY y m) (normM m) d

/-- Go `Time.AddDate(years, months, days)` on the date component. -/
def Date.addDate (dt : Date) (ys ms ds : Int) : Date :=
  normDate (dt.year + ys) (dt.month + ms) (dt.day + ds)

/-- A Go `time.Time` instant: a civil date plus a time-of-day component
(`tod = 0` is midnight; the unit is irrelevant to the engine). -/
structure GoTime where
  date : Date
  tod : Nat
deriving DecidableEq

/-- Go `now.After(c)` for a candidate `c` taken at midnight. -/
def nowAfterB (now : GoTime) (c : Date) : Bool :=
  decide (toDays c < toDays now.date) ||
    (decide (toDays c = toDays now.date) && decide (0 < now.tod))

/-- Go `now.Equal(c)` for a candidate `c` taken at midnight. -/
def nowEqualB (now : GoTime) (c : Date) : Bool :=
  decide (toDays c = toDays now.date) && decide (now.tod = 0)

/-- Go `now.Before(c)` for a candidate `c` taken at midnight. -/
def nowBeforeB (now : GoTime) (c : Date) : Bool :=
  decide (toDays now.date < toDays c)

/-- Go `Weekday()` (0 = Sunday … 6 = Saturday); day 0 = 0001-01-01 is a
Monday. -/
def goWeekday (dt : Date) : Int := (toDays dt + 1) % 7

/-- ISO weekday (1 = Monday … 7 = Sunday) of a date. -/
def isoWeekday (dt : Date) : Int := if goWeekday dt = 0 then 7 else goWeekday dt

/-- One decimal digit of a character, if any. -/
def digitVal (c : Char) : Option Nat :=
  if '0' ≤ c ∧ c ≤ '9' then some (c.toNat - '0'.toNat) else none

def parseDigitsAux : List Char → Nat → Option Nat
  | [], acc => some acc
  | c :: cs, acc =>
    match digitVal c with
    | none => none
    | some d => parseDigitsAux cs (acc * 10 + d)

/-- Go `strconv.Atoi`: optional sign then a non-empty digit string;
values outside int64 are rejected (Go's `ErrRange`). -/
def goAtoi (s : String) : Option Int :=
  let fn : Bool → List Char → Option Int := fun neg ds =>
    if ds.isEmpty then none
    else
      match parseDigitsAux ds 0 with
      | none => none
      | some n =>
        let v : Int := if neg then -(n : Int) else (n : Int)
        if v < -(2 ^ 63) ∨ 2 ^ 63 - 1 < v then none else some v
  match s.data with
  | '-' :: rest => fn true rest
  | '+' :: rest => fn false rest
  | cs => fn false cs

/-- Go `time.Parse("20060102", s)`: exactly eight digits, with month and
day range-checked against the calendar. -/
def goParseDate (s : String) : Option Date :=
  match s.data with
  | [y1, y2, y3, y4, m1, m2, d1, d2] =>
    match digitVal y1, digitVal y2, digitVal y3, digitVal y4,
          digitVal m1, digitVal m2, digitVal d1, digitVal d2 with
    | some a, some b, some c, some d, some e, some f, some g, some h =>
      let y : Int := ((a * 1000 + b * 100 + c * 10 + d : Nat) : Int)
      let mo : Int := ((e * 10 + f : Nat) : Int)
      let dd : Int := ((g * 10 + h : Nat) : Int)
      if 1 ≤ mo ∧ mo ≤ 12 ∧ 1 ≤ dd ∧ dd ≤ daysIn y mo then
        some ⟨y, mo, dd⟩
      else none
    | _, _, _, _, _, _, _, _ => none
  | _ => none

/-- One splitting step of Go `strings.Split` with a one-character
separator, on the character list. -/
def splitChar (sep : Char) : List Char → List (List Char)
  | [] => [[]]
  | c :: cs =>
    if c = sep then [] :: splitChar sep cs
    else
      match splitChar sep cs with
      | [] => [[c]]
      | w :: ws => (c :: w) :: ws

/-- Go `strings.Split(s, sep)` for a one-character separator: split at
every occurrence, keeping empty pieces; the result is never empty. -/
def goSplit (s : String) (sep : Char) : List String :=
  (splitChar sep s.data).map String.mk

/-- Named errors of the engine (`internal/entity/errors.go` kinds; Atoi
and `time.Parse` failures are wrapped but keep their kind). -/
inductive CalcErr where
  | missingRepeatParams
  | invalidDate
  | noInterval
  | maxIntervalExceeded
  | atoiError
  | illegalValue (n : Int)
  | unsupportedRepeatFormat
  | dateCalculation
deriving DecidableEq

/-- Result of a calculation: a date, a named error, or a Go runtime
panic (slice index out of range aborts the process). -/
inductive Outcome where
  | ok (d : Date)
  | err (e : CalcErr)
  | panicked
deriving DecidableEq

/-- `entity.MaxIntervalInDays`. -/
def MaxIntervalInDays : Int := 400

/-- `entity.MonthsInYear`. -/
def MonthsInYear : Int := 12

/-- `entity.DaysInWeek`. -/
def DaysInWeek : Int := 7

/-- `entity.MaxDaysInMonth`. -/
def MaxDaysInMonth : Int := 31

/-- Fuel-indexed while-loop: run `step` while `cond` holds; `none` when
the fuel is exhausted with the condition still true. -/
def loopIter (cond : Date → Bool) (step : Date → Date) : Nat → Date → Option Date
  | 0, c => if cond c then none else some c
  | n + 1, c => if cond c then loopIter cond step n (step c) else some c

/-- `calculateNextDateYear`: start at `startDate + 1 year`, advance one
year while `now.After(curr) || now.Equal(curr)`. -/
def calculateNextDateYear (fuel : Nat) (now : GoTime) (startDate : Date) : Option Date :=
  loopIter (fun c => nowAfterB now c || nowEqualB now c) (fun c => c.addDate 1 0 0)
    fuel (startDate.addDate 1 0 0)

/-- `calculateNextDateDay`: parse `parts[1]`, cap at
`MaxIntervalInDays`, start at `startDate + days`, advance `days` while
`now.After(curr)`. -/
def calculateNextDateDay (fuel : Nat) (now : GoTime) (startDate : Date)
    (parts : List String) : Option Outcome :=
  match parts with
  | [] => some .panicked
  | [_] => some (.err .noInterval)
  | _ :: p1 :: _ =>
    match goAtoi p1 with
    | none => some (.err .atoiError)
    | some days =>
      if MaxIntervalInDays < days then some (.err .maxIntervalExceeded)
      else
        (loopIter (fun c => nowAfterB now c) (fun c => c.addDate 0 0 days)
          fuel (startDate.addDate 0 0 days)).map .ok

/-- `extIntParams` body: Atoi every comma-separated piece and range-check
it against `[lo, hi]`, failing on the first bad piece. -/
def extIntParamsAux (lo hi : Int) : List String → Except CalcErr (List Int)
  | [] => .ok []
  | s :: rest =>
    match goAtoi s with
    | none => .error .atoiError
    | some n =>
      if n < lo ∨ hi < n then .error (.illegalValue n)
      else
        match extIntParamsAux lo hi rest with
        | .error e => .error e
        | .ok ns => .ok (n :: ns)

/-- `extIntParams(params, min, max)`. -/
def extIntParams (params : String) (lo hi : Int) : Except CalcErr (List Int) :=
  extIntParamsAux lo hi (goSplit params ',')

/-- The weekday test of the inner loop of `calculateNextDateWeek`:
`day == weekday || (day == 0 && weekday == 7)` for some entry. -/
def weekMatch (weekdays : List Int) (c : Date) : Bool :=
  weekdays.any (fun w =>
    decide (goWeekday c = w) || (decide (goWeekday c = 0) && decide (w = 7)))

/-- `calculateNextDateWeek`: parse the weekday list (range `[1,7]`), then
scan one day at a time from `now + 1 day` until the weekday matches. -/
def calculateNextDateWeek (fuel : Nat) (now : GoTime) (parts : List String) : Option Outcome :=
  match parts with
  | [] => some .panicked
  | [_] => some (.err .noInterval)
  | _ :: p1 :: _ =>
    match extIntParams p1 1 DaysInWeek with
    | .error e => some (.err e)
    | .ok weekdays =>
      (loopIter (fun c => !weekMatch weekdays c) (fun c => c.addDate 0 0 1)
        fuel (now.date.addDate 0 0 1)).map .ok

/-- The comparison closure passed to `sort.SliceStable` in
`sortDayParams`. -/
def dayLess (a b : Int) : Bool :=
  if a < 0 && b < 0 then decide (a < b)
  else if a < 0 then false
  else if b < 0 then true
  else decide (a < b)

/-- Insert `a` before the first element `b` of an already sorted list
with `le a b`; ties keep the inserted (originally earlier) element
first, which is exactly the placement of a stable sort. -/
def insertLe (le : Int → Int → Bool) (a : Int) : List Int → List Int
  | [] => [a]
  | b :: bs => if le a b then a :: b :: bs else b :: insertLe le a bs

/-- Stable insertion sort by a boolean total preorder `le`. -/
def stableSort (le : Int → Int → Bool) : List Int → List Int
  | [] => []
  | a :: as => insertLe le a (stableSort le as)

/-- `sortDayParams`: `sort.SliceStable(days, dayLess)`.  A stable sort by
a strict weak order is uniquely determined, so it is embedded as a
stable insertion sort by the complementary `le a b := !dayLess b a`. -/
def sortDayParams (days : List Int) : List Int :=
  stableSort (fun a b => !dayLess b a) days

/-- `sort.Ints`. -/
def sortInts (l : List Int) : List Int := stableSort (fun a b => decide (a ≤ b)) l

/-- `buildDateMap` entry for month `m`: the slice of the days of that
month, in year `wallYear` — the year the source reads from
`time.Now().Year()` inside `buildDateMap`, an ambient input modelled
explicitly.  The slice has `lastDay.Day()` entries, the `i`-th being the
first of the month advanced `i` times by `AddDate(0, 0, 1)`. -/
def buildDateMap (wallYear m : Int) : List Date :=
  let currDay := normDate wallYear m 1
  let lastDay := currDay.addDate 0 1 (-1)
  (List.range lastDay.day.toNat).map (fun i => (fun d => Date.addDate d 0 0 1)^[i] currDay)

/-- The acceptance test of the Monthly search:
`now.Before(currDate) || now.Equal(currDate)`. -/
def acceptB (now : GoTime) (c : Date) : Bool := nowBeforeB now c || nowEqualB now c

/-- Inner `for _, m := range months` loop of `calculateNextDateMonth` for
a fixed day value `d`; `none` = fell through without returning.
`days[len(days)+d]` / `days[d-1]` with a negative or too-large index is
a Go panic. -/
def monthProbe (now : GoTime) (dm : Int → List Date) (d : Int) : List Int → Option Outcome
  | [] => none
  | m :: ms =>
    let days := dm m
    if (days.length : Int) ≤ d - 1 then monthProbe now dm d ms
    else
      let idx : Int := if d < 0 then (days.length : Int) + d else d - 1
      if idx < 0 then some .panicked
      else
        match days.get? idx.toNat with
        | none => some .panicked
        | some currDate =>
          if acceptB now currDate then some (.ok currDate)
          else monthProbe now dm d ms

/-- Outer `for _, d := range monthDays` loop of
`calculateNextDateMonth`. -/
def monthOuter (now : GoTime) (dm : Int → List Date) (months : List Int) :
    List Int → Outcome
  | [] => .err .dateCalculation
  | d :: ds =>
    match monthProbe now dm d months with
    | some o => o
    | none => monthOuter now dm months ds

/-- `calculateNextDateMonth`: parse the day values (range
`[-2, MaxDaysInMonth]`), stable-sort them, determine the month list
(explicit third token sorted ascending, or the default pair from
whichever of `startDate`/`now` is later), then run the nested search. -/
def calculateNextDateMonth (now : GoTime) (startDate : Date) (wallYear : Int)
    (parts : List String) : Outcome :=
  match parts with
  | [] => .panicked
  | [_] => .err .noInterval
  | _ :: p1 :: _ =>
    match extIntParams p1 (-2) MaxDaysInMonth with
    | .error e => .err e
    | .ok monthDays0 =>
      let monthDays := sortDayParams monthDays0
      let monthsRes : Except CalcErr (List Int) :=
        if parts.length = 3 then
          match extIntParams (parts.getD 2 "") 1 MonthsInYear with
          | .error e => .error e
          | .ok ms => .ok (sortInts ms)
        else
          .ok (if nowBeforeB now startDate then
                  [startDate.month, startDate.month + 1]
                else
                  [now.date.month, now.date.month + 1])
      match monthsRes with
      | .error e => .err e
      | .ok months => monthOuter now (buildDateMap wallYear) months monthDays

/-- `calculateNextDate(now, date, repeat)`: empty-rule check, date parse,
split on spaces, dispatch on the family letter. -/
def calculateNextDate (fuel : Nat) (wallYear : Int) (now : GoTime)
    (dateStr repeatStr : String) : Option Outcome :=
  if repeatStr = "" then some (.err .missingRepeatParams)
  else
    match goParseDate dateStr with
    | none => some (.err .invalidDate)
    | some startDate =>
      match goSplit repeatStr ' ' with
      | [] => some .panicked
      | param :: rest =>
        if param = "y" then (calculateNextDateYear fuel now startDate).map .ok
        else if param = "d" then calculateNextDateDay fuel now startDate (param :: rest)
        else if param = "w" then calculateNextDateWeek fuel now (param :: rest)
        else if param = "m" then
          some (calculateNextDateMonth now startDate wallYear (param :: rest))
        else some (.err .unsupportedRepeatFormat)

/-- The per-(day value, month) candidate of the Monthly search, as the
body of `monthProbe` computes it on in-range day values: `none` when the
`len(days) <= d-1` guard skips the pair. -/
def candAt (wallYear d m : Int) : Option Date :=
  let days := buildDateMap wallYear m
  if (days.length : Int) ≤ d - 1 then none
  else
    let idx : Int := if d < 0 then (days.length : Int) + d else d - 1
    if idx < 0 then none else days.get? idx.toNat

/-! ## Calendar arithmetic lemmas -/

lemma isLeap_iff (y : Int) :
    isLeap y = true ↔ (y % 4 = 0 ∧ (¬ y % 100 = 0 ∨ y % 400 = 0)) := by
  simp [isLeap]

lemma yearStart_succ (y : Int) :
    yearStart (y + 1) = yearStart y + (if isLeap y then 366 else 365) := by
  have h := isLeap_iff y
  unfold yearStart
  split
  · have h2 := h.mp (by assumption)
    omega
  · rename_i hl
    have h2 : ¬ (y % 4 = 0 ∧ (¬ y % 100 = 0 ∨ y % 400 = 0)) := fun hc => hl (h.mpr hc)
    omega

lemma toDays_day (y m d : Int) :
    toDays ⟨y, m, d⟩ = toDays ⟨y, m, 1⟩ + d - 1 := by
  simp only [toDays]
  ring

lemma toDays_month_step (y m : Int) (h1 : 1 ≤ m) (h2 : m ≤ 11) :
    toDays ⟨y, m + 1, 1⟩ = toDays ⟨y, m, 1⟩ + daysIn y m := by
  interval_cases m <;>
    cases hl : isLeap y <;>
      simp [toDays, daysIn, monthsBefore, hl] <;> omega

lemma toDays_year_step (y : Int) :
    toDays ⟨y + 1, 1, 1⟩ = toDays ⟨y, 12, 1⟩ + 31 := by
  have h := yearStart_succ y
  cases hl : isLeap y <;>
    simp only [hl, if_true, if_false, Bool.false_eq_true] at h <;>
      simp [toDays, monthsBefore, hl, h] <;> omega

lemma daysIn_ne_two (y y' m : Int) (h : m ≠ 2) : daysIn y m = daysIn y' m := by
  unfold daysIn
  split_ifs <;> omega

lemma valid_mk (y m d : Int) (h1 : 1 ≤ m) (h2 : m ≤ 12) (h3 : 1 ≤ d)
    (h4 : d ≤ daysIn y m) : (Date.mk y m d).Valid :=
  ⟨h1, h2, h3, h4⟩

lemma normDayFix_spec_aux (n : Nat) : ∀ (y m e : Int), msr e ≤ n → 1 ≤ m → m ≤ 12 →
    (normDayFix y m e).Valid ∧
      toDays (normDayFix y m e) = toDays ⟨y, m, 1⟩ + e - 1 := by
  induction n with
  | zero =>
    intro y m e hle
    have := msr_pos e
    omega
  | succ n ih =>
    intro y m e hle hm1 hm2
    rw [normDayFix_eq]
    by_cases h1 : e < 1
    · rw [if_pos h1]
      by_cases h2 : m = 1
      · rw [if_pos h2]
        have hdb := daysIn_bounds (y - 1) 12
        have hdec := msr_dec_up e (daysIn (y - 1) 12) h1 hdb
        obtain ⟨hv, ht⟩ := ih (y - 1) 12 (e + daysIn (y - 1) 12) (by omega) (by norm_num) (by norm_num)
        refine ⟨hv, ?_⟩
        have hy : toDays ⟨y - 1 + 1, 1, 1⟩ = toDays ⟨y - 1, 12, 1⟩ + 31 := toDays_year_step (y - 1)
        have hyy : y - 1 + 1 = y := by ring
        rw [hyy] at hy
        have hd : daysIn (y - 1) 12 = 31 := by norm_num [daysIn]
        rw [h2]
        omega
      · rw [if_neg h2]
        have hdb := daysIn_bounds y (m - 1)
        have hdec := msr_dec_up e (daysIn y (m - 1)) h1 hdb
        obtain ⟨hv, ht⟩ := ih y (m - 1) (e + daysIn y (m - 1)) (by omega) (by omega) (by omega)
        refine ⟨hv, ?_⟩
        have hstep : toDays ⟨y, m - 1 + 1, 1⟩ = toDays ⟨y, m - 1, 1⟩ + daysIn y (m - 1) :=
          toDays_month_step y (m - 1) (by omega) (by omega)
        have hmm : m - 1 + 1 = m := by ring
        rw [hmm] at hstep
        omega
    · rw [if_neg h1]
      by_cases h3 : daysIn y m < e
      · rw [if_pos h3]
        have hdb := daysIn_bounds y m
        have hdec := msr_dec_down e (daysIn y m) h1 h3 hdb
        by_cases h2 : m = 12
        · rw [if_pos h2]
          obtain ⟨hv, ht⟩ := ih (y + 1) 1 (e - daysIn y m) (by omega) (by norm_num) (by norm_num)
          refine ⟨hv, ?_⟩
          have hy := toDays_year_step y
          have hd : daysIn y 12 = 31 := by norm_num [daysIn]
          rw [h2]
          rw [h2] at ht
          omega
        · rw [if_neg h2]
          obtain ⟨hv, ht⟩ := ih y (m + 1) (e - daysIn y m) (by omega) (by omega) (by omega)
          refine ⟨hv, ?_⟩
          have hstep : toDays ⟨y, m + 1, 1⟩ = toDays ⟨y, m, 1⟩ + daysIn y m :=
            toDays_month_step y m (by omega) (by omega)
          omega
      · rw [if_neg h3]
        exact ⟨valid_mk y m e hm1 hm2 (by omega) (by omega), toDays_day y m e⟩

lemma normDayFix_spec (y m e : Int) (hm1 : 1 ≤ m) (hm2 : m ≤ 12) :
    (normDayFix y m e).Valid ∧
      toDays (normDayFix y m e) = toDays ⟨y, m, 1⟩ + e - 1 :=
  normDayFix_spec_aux (msr e) y m e (Nat.le_refl _) hm1 hm2

lemma normM_bounds (m : Int) : 1 ≤ normM m ∧ normM m ≤ 12 := by
  unfold normM
  omega

lemma normDate_spec (y m d : Int) :
    (normDate y m d).Valid ∧
      toDays (normDate y m d) = toDays ⟨normY y m, normM m, 1⟩ + d - 1 :=
  normDayFix_spec _ _ _ (normM_bounds m).1 (normM_bounds m).2

lemma addDate_days (dt : Date) (k : Int) (h : dt.Valid) :
    (dt.addDate 0 0 k).Valid ∧ toDays (dt.addDate 0 0 k) = toDays dt + k := by
  obtain ⟨hm1, hm2, hd1, hd2⟩ := h
  have e1 : normY (dt.year + 0) (dt.month + 0) = dt.year := by
    unfold normY
    omega
  have e2 : normM (dt.month + 0) = dt.month := by
    unfold normM
    omega
  have := normDayFix_spec dt.year dt.month (dt.day + k) hm1 hm2
  unfold Date.addDate normDate
  rw [e1, e2]
  refine ⟨this.1, ?_⟩
  have hd := toDays_day dt.year dt.month dt.day
  have : toDays ⟨dt.year, dt.month, dt.day⟩ = toDays dt := by rfl
  omega

lemma addDate_year (dt : Date) (h : dt.Valid) :
    (dt.addDate 1 0 0).Valid ∧ (dt.addDate 1 0 0).year = dt.year + 1 ∧
      toDays dt < toDays (dt.addDate 1 0 0) := by
  obtain ⟨hm1, hm2, hd1, hd2⟩ := h
  have e1 : normY (dt.year + 1) (dt.month + 0) = dt.year + 1 := by
    unfold normY
    omega
  have e2 : normM (dt.month + 0) = dt.month := by
    unfold normM
    omega
  have hb := daysIn_bounds dt.year dt.month
  have hb' := daysIn_bounds (dt.year + 1) dt.month
  have hys := yearStart_succ dt.year
  unfold Date.addDate normDate
  rw [e1, e2]
  by_cases hc : daysIn (dt.year + 1) dt.month < dt.day + 0
  · -- only possible for Feb 29 over a non-leap target year
    have hm2' : dt.month = 2 := by
      by_contra hne
      have := daysIn_ne_two dt.year (dt.year + 1) dt.month hne
      omega
    rw [hm2'] at hc hd2
    have h28 : daysIn (dt.year + 1) 2 = 28 ∨ daysIn (dt.year + 1) 2 = 29 := by
      unfold daysIn
      split_ifs <;> omega
    have h29 : daysIn dt.year 2 ≤ 29 := by
      unfold daysIn
      split_ifs <;> omega
    have hfeb : daysIn (dt.year + 1) 2 = 28 ∧ dt.day = 29 := by omega
    rw [hm2']
    rw [normDayFix_eq, if_neg (by omega), if_pos (by omega), if_neg (by norm_num)]
    have e3 : (2 : Int) + 1 = 3 := by norm_num
    rw [e3]
    have h31 : daysIn (dt.year + 1) 3 = 31 := by norm_num [daysIn]
    rw [normDayFix_eq, if_neg (by omega), if_neg (by omega)]
    refine ⟨valid_mk _ _ _ (by norm_num) (by norm_num) (by omega) (by omega), rfl, ?_⟩
    have ht1 : toDays dt = toDays ⟨dt.year, 2, 29⟩ := by
      have h0 : dt = ⟨dt.year, dt.month, dt.day⟩ := rfl
      rw [h0, hm2', hfeb.2]
    rw [ht1]
    have hday : dt.day + 0 - daysIn (dt.year + 1) 2 = 1 := by omega
    rw [hday]
    cases hl : isLeap (dt.year + 1) <;>
      cases hl' : isLeap dt.year <;>
        simp only [hl, hl', if_true, if_false, Bool.false_eq_true] at hys <;>
          simp [toDays, monthsBefore, hl, hl', hys] <;> omega
  · rw [normDayFix_eq, if_neg (by omega), if_neg (by omega)]
    refine ⟨valid_mk _ _ _ hm1 hm2 (by omega) (by omega), rfl, ?_⟩
    have ht1 : toDays dt = toDays ⟨dt.year, dt.month, dt.day⟩ := rfl
    rw [ht1]
    have hday0 : dt.day + 0 = dt.day := by ring
    rw [hday0]
    by_cases hmgt : 2 < dt.month
    · cases hl : isLeap (dt.year + 1) <;>
        cases hl' : isLeap dt.year <;>
          simp only [hl, hl', if_true, if_false, Bool.false_eq_true] at hys <;>
            simp [toDays, hmgt, hl, hl', hys] <;> omega
    · cases hl : isLeap (dt.year + 1) <;>
        cases hl' : isLeap dt.year <;>
          simp only [hl, hl', if_true, if_false, Bool.false_eq_true] at hys <;>
            simp [toDays, hmgt, hl, hl', hys] <;> omega

lemma goParseDate_valid (s : String) (dt : Date) (h : goParseDate s = some dt) :
    dt.Valid := by
  unfold goParseDate at h
  split at h
  · split at h
    · dsimp only at h
      split at h
      · rename_i hcond
        simp only [Option.some.injEq] at h
        subst h
        exact ⟨hcond.1, hcond.2.1, hcond.2.2.1, hcond.2.2.2⟩
      · exact absurd h (by simp)
    · exact absurd h (by simp)
  · exact absurd h (by simp)

/-! ## Loop lemmas -/

lemma loopIter_some (cond : Date → Bool) (step : Date → Date) :
    ∀ (n : Nat) (c r : Date), loopIter cond step n c = some r →
      ∃ k : Nat, k ≤ n ∧ r = step^[k] c ∧ cond r = false ∧
        ∀ j : Nat, j < k → cond (step^[j] c) = true := by
  intro n
  induction n with
  | zero =>
    intro c r h
    simp only [loopIter] at h
    split at h
    · exact absurd h (by simp)
    · rename_i hc
      have hcr : c = r := Option.some.inj h
      subst hcr
      exact ⟨0, Nat.le_refl 0, by simp, by simpa using hc,
        fun j hj => absurd hj (Nat.not_lt_zero j)⟩
  | succ n ih =>
    intro c r h
    simp only [loopIter] at h
    split at h
    · rename_i hc
      obtain ⟨k, hk, hr, hcond, hall⟩ := ih (step c) r h
      refine ⟨k + 1, by omega, ?_, hcond, ?_⟩
      · rw [Function.iterate_succ_apply]
        exact hr
      · intro j hj
        cases j with
        | zero => simpa using hc
        | succ j' =>
          rw [Function.iterate_succ_apply]
          exact hall j' (by omega)
    · rename_i hc
      have hcr : c = r := Option.some.inj h
      subst hcr
      exact ⟨0, by omega, by simp, by simpa using hc,
        fun j hj => absurd hj (Nat.not_lt_zero j)⟩

lemma loopIter_exit (cond : Date → Bool) (step : Date → Date) :
    ∀ (n : Nat) (c : Date), (∃ k : Nat, k ≤ n ∧ cond (step^[k] c) = false) →
      ∃ r, loopIter cond step n c = some r := by
  intro n
  induction n with
  | zero =>
    rintro c ⟨k, hk, hc⟩
    have hk0 : k = 0 := by omega
    subst hk0
    simp only [Function.iterate_zero_apply] at hc
    exact ⟨c, by simp [loopIter, hc]⟩
  | succ n ih =>
    rintro c ⟨k, hk, hc⟩
    by_cases h0 : cond c = true
    · cases k with
      | zero =>
        simp only [Function.iterate_zero_apply] at hc
        rw [h0] at hc
        exact absurd hc (by simp)
      | succ k' =>
        obtain ⟨r, hr⟩ := ih (step c)
          ⟨k', by omega, by rw [← Function.iterate_succ_apply]; exact hc⟩
        refine ⟨r, ?_⟩
        simp only [loopIter]
        rw [if_pos h0]
        exact hr
    · refine ⟨c, ?_⟩
      simp only [loopIter]
      rw [if_neg h0]

/-! ## Iterated date-stepping lemmas -/

lemma iterate_addDate_days (k : Int) : ∀ (n : Nat) (dt : Date), dt.Valid →
    ((fun c => c.addDate 0 0 k)^[n] dt).Valid ∧
      toDays ((fun c => c.addDate 0 0 k)^[n] dt) = toDays dt + n * k := by
  intro n
  induction n with
  | zero =>
    intro dt h
    exact ⟨by simpa using h, by simp⟩
  | succ n ih =>
    intro dt h
    rw [Function.iterate_succ_apply]
    obtain ⟨hv, ht⟩ := addDate_days dt k h
    obtain ⟨hv2, ht2⟩ := ih _ hv
    refine ⟨hv2, ?_⟩
    rw [ht2, ht]
    push_cast
    ring

lemma iterate_addYear (n : Nat) (dt : Date) (h : dt.Valid) :
    ((fun c => c.addDate 1 0 0)^[n] dt).Valid ∧
      toDays dt + n ≤ toDays ((fun c => c.addDate 1 0 0)^[n] dt) := by
  induction n with
  | zero => exact ⟨by simpa using h, by simp⟩
  | succ n ih =>
    rw [Function.iterate_succ_apply']
    obtain ⟨hv, hy, hlt⟩ := addDate_year _ ih.1
    refine ⟨hv, ?_⟩
    have := ih.2
    push_cast
    push_cast at this
    omega

/-! ## Parameter-list parsing lemmas -/

lemma extIntParamsAux_range (lo hi : Int) :
    ∀ (l : List String) (ns : List Int), extIntParamsAux lo hi l = .ok ns →
      ∀ x ∈ ns, lo ≤ x ∧ x ≤ hi := by
  intro l
  induction l with
  | nil =>
    intro ns h x hx
    simp only [extIntParamsAux] at h
    have : ([] : List Int) = ns := by injection h
    subst this
    simp at hx
  | cons s rest ih =>
    intro ns h x hx
    simp only [extIntParamsAux] at h
    split at h
    · exact absurd h (by simp)
    · rename_i n hn
      split at h
      · exact absurd h (by simp)
      · rename_i hrange
        split at h
        · exact absurd h (by simp)
        · rename_i ns' hns'
          have hcons : n :: ns' = ns := by injection h
          subst hcons
          rcases List.mem_cons.mp hx with rfl | hx'
          · omega
          · exact ih ns' hns' x hx'

lemma extIntParams_range (params : String) (lo hi : Int) (ns : List Int)
    (h : extIntParams params lo hi = .ok ns) : ∀ x ∈ ns, lo ≤ x ∧ x ≤ hi :=
  extIntParamsAux_range lo hi _ ns h

/-! ## Weekday lemmas -/

lemma goWeekday_bounds (dt : Date) : 0 ≤ goWeekday dt ∧ goWeekday dt < 7 := by
  unfold goWeekday
  omega

lemma weekMatch_iff (ws : List Int) (c : Date) (hws : ∀ w ∈ ws, 1 ≤ w ∧ w ≤ 7) :
    weekMatch ws c = true ↔ isoWeekday c ∈ ws := by
  have hgw := goWeekday_bounds c
  unfold weekMatch isoWeekday
  rw [List.any_eq_true]
  constructor
  · rintro ⟨w, hw, hcond⟩
    simp only [Bool.or_eq_true, Bool.and_eq_true, decide_eq_true_eq] at hcond
    rcases hcond with heq | ⟨h0, h7⟩
    · have hr := hws w hw
      rw [if_neg (by omega), heq]
      exact hw
    · rw [if_pos h0]
      exact h7 ▸ hw
  · intro hmem
    by_cases h0 : goWeekday c = 0
    · rw [if_pos h0] at hmem
      exact ⟨7, hmem, by simp [h0]⟩
    · rw [if_neg h0] at hmem
      exact ⟨goWeekday c, hmem, by simp⟩

lemma week_hit (ws : List Int) (dt : Date) (hne : ws ≠ [])
    (hws : ∀ w ∈ ws, 1 ≤ w ∧ w ≤ 7) (hv : dt.Valid) :
    ∃ j : Nat, j ≤ 6 ∧ weekMatch ws ((fun c => c.addDate 0 0 1)^[j] dt) = true := by
  obtain ⟨w, hw⟩ := List.exists_mem_of_ne_nil ws hne
  obtain ⟨hw1, hw7⟩ := hws w hw
  have hj : ∃ j : Nat, (j : Int) ≤ 6 ∧ (toDays dt + j + 1) % 7 = w % 7 := by
    refine ⟨((w % 7 - toDays dt - 1) % 7).toNat, by omega, by omega⟩
  obtain ⟨j, hj6, hjw⟩ := hj
  have hit := iterate_addDate_days 1 j dt hv
  refine ⟨j, by exact_mod_cast hj6, ?_⟩
  unfold weekMatch
  rw [List.any_eq_true]
  refine ⟨w, hw, ?_⟩
  have hgw : goWeekday ((fun c => c.addDate 0 0 1)^[j] dt) = w % 7 := by
    unfold goWeekday
    rw [hit.2]
    omega
  simp only [Bool.or_eq_true, Bool.and_eq_true, decide_eq_true_eq]
  by_cases hw7' : w = 7
  · exact Or.inr ⟨by rw [hgw]; omega, hw7'⟩
  · exact Or.inl (by rw [hgw]; omega)

/-! ## Sorting lemmas -/

lemma dayLess_iff (a b : Int) :
    dayLess a b = true ↔
      ((0 ≤ a ∧ 0 ≤ b ∧ a < b) ∨ (a < 0 ∧ b < 0 ∧ a < b) ∨ (0 ≤ a ∧ b < 0)) := by
  unfold dayLess
  split_ifs <;> simp_all <;> omega

lemma dayLess_false_iff (a b : Int) :
    dayLess a b = false ↔
      ¬((0 ≤ a ∧ 0 ≤ b ∧ a < b) ∨ (a < 0 ∧ b < 0 ∧ a < b) ∨ (0 ≤ a ∧ b < 0)) := by
  rw [← dayLess_iff]
  simp

lemma dayLe_trans (a b c : Int) (h1 : (!dayLess b a) = true) (h2 : (!dayLess c b) = true) :
    (!dayLess c a) = true := by
  simp only [Bool.not_eq_true'] at h1 h2 ⊢
  rw [dayLess_false_iff] at h1 h2 ⊢
  omega

lemma dayLe_total (a b : Int) : ((!dayLess b a) || (!dayLess a b)) = true := by
  simp only [Bool.or_eq_true, Bool.not_eq_true']
  rw [dayLess_false_iff, dayLess_false_iff]
  omega

/-- The probe order of day values: non-negative values first, ascending,
then negative values ascending (−2 before −1). -/
def dayOrd (a b : Int) : Prop :=
  (0 ≤ a ∧ 0 ≤ b ∧ a ≤ b) ∨ (a < 0 ∧ b < 0 ∧ a ≤ b) ∨ (0 ≤ a ∧ b < 0)

lemma insertLe_perm (le : Int → Int → Bool) (a : Int) :
    ∀ l : List Int, (insertLe le a l).Perm (a :: l) := by
  intro l
  induction l with
  | nil => rfl
  | cons b bs ih =>
    rw [insertLe]
    split_ifs
    · rfl
    · exact (ih.cons b).trans (List.Perm.swap a b bs)

lemma stableSort_perm (le : Int → Int → Bool) : ∀ l : List Int, (stableSort le l).Perm l := by
  intro l
  induction l with
  | nil => rfl
  | cons a as ih => exact (insertLe_perm le a (stableSort le as)).trans (ih.cons a)

lemma insertLe_pairwise (le : Int → Int → Bool)
    (htrans : ∀ a b c, le a b = true → le b c = true → le a c = true)
    (htot : ∀ a b, (le a b || le b a) = true) :
    ∀ (a : Int) (l : List Int), l.Pairwise (le · · = true) →
      (insertLe le a l).Pairwise (le · · = true) := by
  intro a l
  induction l with
  | nil => intro _; simp [insertLe]
  | cons b bs ih =>
    intro h
    rw [insertLe]
    by_cases hab : le a b = true
    · rw [if_pos hab]
      refine List.Pairwise.cons ?_ h
      intro x hx
      rcases List.mem_cons.mp hx with rfl | hx'
      · exact hab
      · exact htrans a b x hab (List.rel_of_pairwise_cons h hx')
    · rw [if_neg hab]
      have hba : le b a = true := by
        have := htot a b
        simp only [Bool.or_eq_true] at this
        tauto
      obtain ⟨hbl, hbs⟩ := List.pairwise_cons.mp h
      refine List.pairwise_cons.mpr ⟨?_, ih hbs⟩
      intro x hx
      have hmem := (insertLe_perm le a bs).mem_iff.mp hx
      rcases List.mem_cons.mp hmem with rfl | hx'
      · exact hba
      · exact hbl x hx'

lemma stableSort_pairwise (le : Int → Int → Bool)
    (htrans : ∀ a b c, le a b = true → le b c = true → le a c = true)
    (htot : ∀ a b, (le a b || le b a) = true) :
    ∀ l : List Int, (stableSort le l).Pairwise (le · · = true) := by
  intro l
  induction l with
  | nil => simp [stableSort]
  | cons a as ih => exact insertLe_pairwise le htrans htot a (stableSort le as) ih

lemma sortDayParams_perm (l : List Int) : (sortDayParams l).Perm l :=
  stableSort_perm _ l

lemma sortDayParams_pairwise (l : List Int) : (sortDayParams l).Pairwise dayOrd := by
  have hs := stableSort_pairwise (fun a b => !dayLess b a)
    (fun a b c => dayLe_trans a b c) (fun a b => dayLe_total a b) l
  unfold sortDayParams
  refine hs.imp ?_
  intro a b hab
  simp only [Bool.not_eq_true'] at hab
  rw [dayLess_false_iff] at hab
  unfold dayOrd
  omega

lemma sortInts_perm (l : List Int) : (sortInts l).Perm l :=
  stableSort_perm _ l

lemma sortInts_pairwise (l : List Int) : (sortInts l).Pairwise (· ≤ ·) := by
  have hs := stableSort_pairwise (fun a b => decide (a ≤ b))
    (fun a b c h1 h2 => by simp_all; omega) (fun a b => by simp; omega) l
  unfold sortInts
  refine hs.imp ?_
  intro a b hab
  simpa using hab

/-! ## Month-list lemmas -/

lemma normDate_first (y m : Int) : normDate y m 1 = ⟨normY y m, normM m, 1⟩ := by
  unfold normDate
  have hb := daysIn_bounds (normY y m) (normM m)
  rw [normDayFix_eq, if_neg (by omega), if_neg (by omega)]

lemma addDate_last (Y M : Int) (h1 : 1 ≤ M) (h2 : M ≤ 12) :
    (Date.mk Y M 1).addDate 0 1 (-1) = ⟨Y, M, daysIn Y M⟩ := by
  unfold Date.addDate normDate
  dsimp only
  by_cases hM : M = 12
  · subst hM
    have e1 : normY (Y + 0) (12 + 1) = Y + 1 := by unfold normY; omega
    have e2 : normM (12 + 1) = 1 := by unfold normM; omega
    rw [e1, e2]
    rw [normDayFix_eq, if_pos (by omega), if_pos rfl]
    have e4 : Y + 1 - 1 = Y := by ring
    rw [e4]
    have h31 : daysIn Y 12 = 31 := by norm_num [daysIn]
    rw [normDayFix_eq, if_neg (by omega), if_neg (by omega)]
    simp [h31]
  · have e1 : normY (Y + 0) (M + 1) = Y := by unfold normY; omega
    have e2 : normM (M + 1) = M + 1 := by unfold normM; omega
    rw [e1, e2]
    rw [normDayFix_eq, if_pos (by omega), if_neg (by omega)]
    have e3 : M + 1 - 1 = M := by ring
    rw [e3]
    have hb := daysIn_bounds Y M
    rw [normDayFix_eq, if_neg (by omega), if_neg (by omega)]
    simp

lemma iterate_in_month (Y M : Int) (h1 : 1 ≤ M) (h2 : M ≤ 12) :
    ∀ i : Nat, (i : Int) + 1 ≤ daysIn Y M →
      (fun d => Date.addDate d 0 0 1)^[i] ⟨Y, M, 1⟩ = ⟨Y, M, (i : Int) + 1⟩ := by
  intro i
  induction i with
  | zero => intro _; simp
  | succ n ih =>
    intro h
    push_cast at h
    rw [Function.iterate_succ_apply']
    rw [ih (by omega)]
    unfold Date.addDate normDate
    dsimp only
    have e1 : normY (Y + 0) (M + 0) = Y := by unfold normY; omega
    have e2 : normM (M + 0) = M := by unfold normM; omega
    rw [e1, e2]
    rw [normDayFix_eq, if_neg (by omega), if_neg (by omega)]
    simp

lemma buildDateMap_eq (wy m : Int) :
    buildDateMap wy m =
      (List.range (daysIn (normY wy m) (normM m)).toNat).map
        (fun i => ⟨normY wy m, normM m, (i : Int) + 1⟩) := by
  unfold buildDateMap
  rw [normDate_first]
  dsimp only
  have hb := normM_bounds m
  rw [addDate_last (normY wy m) (normM m) hb.1 hb.2]
  dsimp only
  apply List.map_congr_left
  intro i hi
  have hi' := List.mem_range.mp hi
  have hdb := daysIn_bounds (normY wy m) (normM m)
  exact iterate_in_month (normY wy m) (normM m) hb.1 hb.2 i (by omega)

lemma buildDateMap_len (wy m : Int) :
    ((buildDateMap wy m).length : Int) = daysIn (normY wy m) (normM m) := by
  rw [buildDateMap_eq]
  have hdb := daysIn_bounds (normY wy m) (normM m)
  simp only [List.length_map, List.length_range]
  omega

lemma buildDateMap_get (wy m : Int) (i : Nat)
    (hi : (i : Int) < daysIn (normY wy m) (normM m)) :
    (buildDateMap wy m).get? i = some ⟨normY wy m, normM m, (i : Int) + 1⟩ := by
  rw [buildDateMap_eq]
  have hdb := daysIn_bounds (normY wy m) (normM m)
  rw [List.get?_map, List.get?_range (by omega)]
  simp

/-! ## Month-search structure lemmas -/

lemma monthProbe_eq (now : GoTime) (wy d : Int) (hd2 : -2 ≤ d) (hd0 : d ≠ 0) :
    ∀ ms : List Int,
      monthProbe now (buildDateMap wy) d ms =
        ((ms.filterMap (fun m => candAt wy d m)).find? (fun c => acceptB now c)).map .ok := by
  intro ms
  induction ms with
  | nil => simp [monthProbe]
  | cons m ms ih =>
    have hlen : (28 : Int) ≤ ((buildDateMap wy m).length : Int) := by
      have h1 := buildDateMap_len wy m
      have h2 := daysIn_bounds (normY wy m) (normM m)
      omega
    simp only [monthProbe, List.filterMap_cons]
    by_cases hskip : ((buildDateMap wy m).length : Int) ≤ d - 1
    · rw [if_pos hskip]
      have hcand : candAt wy d m = none := by
        unfold candAt
        rw [if_pos hskip]
      rw [hcand]
      exact ih
    · rw [if_neg hskip]
      have hidx0 : ¬ ((if d < 0 then ((buildDateMap wy m).length : Int) + d else d - 1) < 0) := by
        split_ifs <;> omega
      rw [if_neg hidx0]
      have hidxlt :
          (if d < 0 then ((buildDateMap wy m).length : Int) + d else d - 1).toNat <
            (buildDateMap wy m).length := by
        split_ifs <;> omega
      rw [List.get?_eq_get hidxlt]
      dsimp only
      have hcand : candAt wy d m =
          some ((buildDateMap wy m).get
            ⟨(if d < 0 then ((buildDateMap wy m).length : Int) + d else d - 1).toNat, hidxlt⟩) := by
        unfold candAt
        rw [if_neg hskip]
        dsimp only
        rw [if_neg hidx0, List.get?_eq_get hidxlt]
      rw [hcand]
      by_cases hacc : acceptB now ((buildDateMap wy m).get
          ⟨(if d < 0 then ((buildDateMap wy m).length : Int) + d else d - 1).toNat, hidxlt⟩) = true
      · rw [if_pos hacc, List.find?_cons_of_pos _ hacc]
        rfl
      · rw [if_neg hacc, List.find?_cons_of_neg _ (by simpa using hacc)]
        exact ih

lemma monthOuter_eq (now : GoTime) (wy : Int) (months : List Int) :
    ∀ dl : List Int, (∀ d ∈ dl, -2 ≤ d ∧ d ≠ 0) →
      monthOuter now (buildDateMap wy) months dl =
        (match (dl.flatMap (fun d => months.filterMap (fun m => candAt wy d m))).find?
            (fun c => acceptB now c) with
         | some c => .ok c
         | none => .err .dateCalculation) := by
  intro dl
  induction dl with
  | nil => intro _; simp [monthOuter]
  | cons d ds ih =>
    intro h
    have hd := h d (List.mem_cons_self d ds)
    simp only [monthOuter]
    rw [monthProbe_eq now wy d hd.1 hd.2]
    rw [List.flatMap_cons, List.find?_append]
    cases hfind : (months.filterMap (fun m => candAt wy d m)).find? (fun c => acceptB now c) with
    | some c => simp [hfind]
    | none =>
      simp only [hfind, Option.map_none, Option.none_or]
      exact ih (fun x hx => h x (List.mem_cons_of_mem d hx))

/-! ## Loop-condition equivalences -/

lemma yearCond_iff (now : GoTime) (c : Date) :
    (nowAfterB now c || nowEqualB now c) = true ↔ toDays c ≤ toDays now.date := by
  unfold nowAfterB nowEqualB
  simp only [Bool.or_eq_true, Bool.and_eq_true, decide_eq_true_eq]
  omega

lemma yearCond_false_iff (now : GoTime) (c : Date) :
    (nowAfterB now c || nowEqualB now c) = false ↔ toDays now.date < toDays c := by
  have h := yearCond_iff now c
  constructor
  · intro hf
    by_contra hc
    have ht : (nowAfterB now c || nowEqualB now c) = true := h.mpr (by omega)
    rw [hf] at ht
    exact absurd ht (by simp)
  · intro hlt
    cases hb : (nowAfterB now c || nowEqualB now c)
    · rfl
    · have := h.mp hb
      omega

lemma dayCond_iff (now : GoTime) (c : Date) :
    nowAfterB now c = true ↔
      (toDays c < toDays now.date ∨ (toDays c = toDays now.date ∧ 0 < now.tod)) := by
  unfold nowAfterB
  simp only [Bool.or_eq_true, Bool.and_eq_true, decide_eq_true_eq]

lemma dayCond_false_iff (now : GoTime) (c : Date) :
    nowAfterB now c = false ↔
      (toDays now.date < toDays c ∨ (toDays now.date = toDays c ∧ now.tod = 0)) := by
  have h := dayCond_iff now c
  constructor
  · intro hf
    by_contra hc
    have ht : nowAfterB now c = true := h.mpr (by omega)
    rw [hf] at ht
    exact absurd ht (by simp)
  · intro hlt
    cases hb : nowAfterB now c
    · rfl
    · have := h.mp hb
      omega

lemma acceptB_iff_of_midnight (now : GoTime) (c : Date) (h : now.tod = 0) :
    acceptB now c = true ↔ toDays now.date ≤ toDays c := by
  unfold acceptB nowBeforeB nowEqualB
  simp only [Bool.or_eq_true, Bool.and_eq_true, decide_eq_true_eq]
  omega

/-! ## Dispatcher-reduction lemmas -/

lemma goSplit_ne_empty (rs p : String) (rest : List String) (hp : p ≠ "")
    (hs : goSplit rs ' ' = p :: rest) : rs ≠ "" := by
  intro h
  subst h
  rw [show (goSplit "" ' ') = [""] from rfl] at hs
  injection hs with h1 _
  exact hp h1.symm

lemma calcND_dispatch_y (fuel : Nat) (wy : Int) (now : GoTime) (ds rs : String)
    (base : Date) (rest : List String)
    (hp : goParseDate ds = some base) (hs : goSplit rs ' ' = "y" :: rest) :
    calculateNextDate fuel wy now ds rs = (calculateNextDateYear fuel now base).map .ok := by
  unfold calculateNextDate
  rw [if_neg (goSplit_ne_empty rs "y" rest (by decide) hs), hp, hs]
  rfl

lemma calcND_dispatch_d (fuel : Nat) (wy : Int) (now : GoTime) (ds rs : String)
    (base : Date) (rest : List String)
    (hp : goParseDate ds = some base) (hs : goSplit rs ' ' = "d" :: rest) :
    calculateNextDate fuel wy now ds rs =
      calculateNextDateDay fuel now base ("d" :: rest) := by
  unfold calculateNextDate
  rw [if_neg (goSplit_ne_empty rs "d" rest (by decide) hs), hp, hs]
  rfl

lemma calcND_dispatch_w (fuel : Nat) (wy : Int) (now : GoTime) (ds rs : String)
    (base : Date) (rest : List String)
    (hp : goParseDate ds = some base) (hs : goSplit rs ' ' = "w" :: rest) :
    calculateNextDate fuel wy now ds rs =
      calculateNextDateWeek fuel now ("w" :: rest) := by
  unfold calculateNextDate
  rw [if_neg (goSplit_ne_empty rs "w" rest (by decide) hs), hp, hs]
  rfl

lemma calcND_dispatch_m (fuel : Nat) (wy : Int) (now : GoTime) (ds rs : String)
    (base : Date) (rest : List String)
    (hp : goParseDate ds = some base) (hs : goSplit rs ' ' = "m" :: rest) :
    calculateNextDate fuel wy now ds rs =
      some (calculateNextDateMonth now base wy ("m" :: rest)) := by
  unfold calculateNextDate
  rw [if_neg (goSplit_ne_empty rs "m" rest (by decide) hs), hp, hs]
  rfl

/-! ## Weekly characterization -/

lemma weekly_char (now : GoTime) (p1 : String) (rest : List String) (ws : List Int)
    (hok : extIntParams p1 1 DaysInWeek = .ok ws) (hne : ws ≠ [])
    (hv : now.date.Valid) :
    ∃ (r : Date) (j : Nat),
      (∃ fuel, calculateNextDateWeek fuel now ("w" :: p1 :: rest) = some (.ok r)) ∧
      1 ≤ j ∧ j ≤ 7 ∧
      r = (fun c => c.addDate 0 0 1)^[j] now.date ∧
      toDays r = toDays now.date + j ∧
      isoWeekday r ∈ ws ∧
      (∀ i : Nat, 1 ≤ i → i < j →
        isoWeekday ((fun c => c.addDate 0 0 1)^[i] now.date) ∉ ws) := by
  have hws := extIntParams_range p1 1 DaysInWeek ws hok
  have hws' : ∀ w ∈ ws, 1 ≤ w ∧ w ≤ 7 := fun w hw => hws w hw
  have hvstart : (now.date.addDate 0 0 1).Valid := (addDate_days now.date 1 hv).1
  obtain ⟨j0, hj06, hhit⟩ := week_hit ws (now.date.addDate 0 0 1) hne hws' hvstart
  have hexit : ∃ k : Nat, k ≤ j0 ∧
      (!weekMatch ws ((fun c : Date => c.addDate 0 0 1)^[k]
        (now.date.addDate 0 0 1))) = false :=
    ⟨j0, Nat.le_refl j0, by simp [hhit]⟩
  obtain ⟨r, hr⟩ := loopIter_exit (fun c => !weekMatch ws c) (fun c => c.addDate 0 0 1)
    j0 (now.date.addDate 0 0 1) hexit
  obtain ⟨k, hk, hreq, hcond, hall⟩ := loopIter_some (fun c => !weekMatch ws c)
    (fun c => c.addDate 0 0 1) j0 _ r hr
  have hstart1 : now.date.addDate 0 0 1 =
      (fun c : Date => c.addDate 0 0 1)^[1] now.date := by simp
  refine ⟨r, k + 1, ⟨j0, ?_⟩, by omega, by omega, ?_, ?_, ?_, ?_⟩
  · unfold calculateNextDateWeek
    dsimp only
    rw [hok]
    dsimp only
    rw [hr]
    rfl
  · rw [hreq, hstart1, ← Function.iterate_add_apply]
  · have hit := iterate_addDate_days 1 (k + 1) now.date hv
    rw [hreq, hstart1, ← Function.iterate_add_apply]
    rw [hit.2]
    push_cast
    ring
  · have := hall
    rw [← weekMatch_iff ws r hws']
    simp only [Bool.not_eq_false'] at hcond
    exact hcond
  · intro i hi1 hik
    have hh := hall (i - 1) (by omega)
    have hgoal_eq : (fun c : Date => c.addDate 0 0 1)^[i] now.date
        = (fun c : Date => c.addDate 0 0 1)^[i - 1] (now.date.addDate 0 0 1) := by
      have h1 : i = (i - 1) + 1 := by omega
      conv_lhs => rw [h1]
      rw [Function.iterate_add_apply]
      rfl
    rw [hgoal_eq]
    rw [← weekMatch_iff _ _ hws']
    simp only [Bool.not_eq_true'] at hh
    simp [hh]

/-! ## The stuck daily loop on interval 0 -/

lemma d0_loop_stuck (fuel : Nat) :
    loopIter (fun c => nowAfterB ⟨⟨2024, 3, 11⟩, 0⟩ c) (fun c => c.addDate 0 0 0) fuel
      ((⟨2024, 3, 10⟩ : Date).addDate 0 0 0) = none := by
  cases hval : loopIter (fun c => nowAfterB ⟨⟨2024, 3, 11⟩, 0⟩ c)
      (fun c => c.addDate 0 0 0) fuel ((⟨2024, 3, 10⟩ : Date).addDate 0 0 0) with
  | none => rfl
  | some r =>
    exfalso
    obtain ⟨k, _, hreq, hcond, _⟩ := loopIter_some _ _ fuel _ r hval
    have hfix : ∀ n : Nat,
        (fun c : Date => c.addDate 0 0 0)^[n] ((⟨2024, 3, 10⟩ : Date).addDate 0 0 0) =
          ⟨2024, 3, 10⟩ := by
      intro n
      induction n with
      | zero =>
        rw [Function.iterate_zero_apply]
        decide
      | succ n ih =>
        rw [Function.iterate_succ_apply', ih]
        decide
    rw [hfix k] at hreq
    rw [hreq] at hcond
    exact absurd hcond (by decide)

/-! ## Claim theorems -/

/-- C1: Yearly rule — for every `now` instant and every valid base date,
evaluating rule `"y"` returns the base date advanced by `k` whole years
(iterated `AddDate(1,0,0)`) for the smallest `k ≥ 1` such that the
candidate is strictly after `now`; the result never equals `now`'s
date. -/
theorem C1_yearly_rule (wy : Int) (now : GoTime) (ds : String) (base : Date)
    (hparse : goParseDate ds = some base) (hvnow : now.date.Valid) :
    ∃ (r : Date) (k : Nat),
      (∃ fuel, calculateNextDate fuel wy now ds "y" = some (.ok r)) ∧
      1 ≤ k ∧
      r = (fun c => c.addDate 1 0 0)^[k] base ∧
      toDays now.date < toDays r ∧
      (∀ j : Nat, 1 ≤ j → j < k →
        ¬ toDays now.date < toDays ((fun c => c.addDate 1 0 0)^[j] base)) ∧
      r ≠ now.date := by
  have hvbase : base.Valid := goParseDate_valid ds base hparse
  have hvstart : (base.addDate 1 0 0).Valid := (addDate_year base hvbase).1
  set step : Date → Date := fun c => c.addDate 1 0 0 with hstep
  set start : Date := base.addDate 1 0 0 with hstart
  set N : Nat := (toDays now.date + 1 - toDays start).toNat with hN
  have hexit : ∃ kk : Nat, kk ≤ N ∧
      (fun c => nowAfterB now c || nowEqualB now c) (step^[kk] start) = false := by
    refine ⟨N, Nat.le_refl N, ?_⟩
    have hit := iterate_addYear N start hvstart
    rw [← hstep] at hit
    rw [yearCond_false_iff]
    omega
  obtain ⟨r, hr⟩ := loopIter_exit (fun c => nowAfterB now c || nowEqualB now c) step
    N start hexit
  obtain ⟨k0, hk0, hreq, hcond, hall⟩ := loopIter_some
    (fun c => nowAfterB now c || nowEqualB now c) step N start r hr
  have hstart1 : start = step^[1] base := by
    rw [hstep]
    rfl
  refine ⟨r, k0 + 1, ⟨N, ?_⟩, by omega, ?_, ?_, ?_, ?_⟩
  · rw [calcND_dispatch_y N wy now ds "y" base [] hparse rfl]
    unfold calculateNextDateYear
    rw [← hstart, ← hstep, hr]
    rfl
  · rw [hreq, hstart1, ← Function.iterate_add_apply]
  · rw [← yearCond_false_iff]
    exact hcond
  · intro j hj1 hjk
    have hh := hall (j - 1) (by omega)
    have hgoal_eq : step^[j] base = step^[j - 1] start := by
      have h1 : j = (j - 1) + 1 := by omega
      conv_lhs => rw [h1]
      rw [Function.iterate_add_apply]
      rfl
    rw [hgoal_eq]
    rw [yearCond_iff] at hh
    omega
  · intro heq
    have hlt : toDays now.date < toDays r := by
      rw [← yearCond_false_iff]
      exact hcond
    rw [heq] at hlt
    omega

/-- C1 witness: the spec's own example,
`Next(now = 2024-03-01, base = 2023-03-01, "y") = 2025-03-01`. -/
theorem C1_yearly_rule_witness :
    goParseDate "20230301" = some ⟨2023, 3, 1⟩ ∧
    (GoTime.mk ⟨2024, 3, 1⟩ 0).date.Valid ∧
    ∃ (r : Date) (k : Nat),
      (∃ fuel, calculateNextDate fuel 2024 ⟨⟨2024, 3, 1⟩, 0⟩ "20230301" "y" = some (.ok r)) ∧
      1 ≤ k ∧
      r = (fun c => c.addDate 1 0 0)^[k] (⟨2023, 3, 1⟩ : Date) ∧
      toDays (⟨⟨2024, 3, 1⟩, 0⟩ : GoTime).date < toDays r ∧
      (∀ j : Nat, 1 ≤ j → j < k →
        ¬ toDays (⟨⟨2024, 3, 1⟩, 0⟩ : GoTime).date <
          toDays ((fun c => c.addDate 1 0 0)^[j] (⟨2023, 3, 1⟩ : Date))) ∧
      r ≠ (⟨⟨2024, 3, 1⟩, 0⟩ : GoTime).date :=
  ⟨rfl, by decide,
    C1_yearly_rule 2024 ⟨⟨2024, 3, 1⟩, 0⟩ "20230301" ⟨2023, 3, 1⟩ rfl (by decide)⟩

/-- C2 counterexample: the interval `0` is accepted by the parsing stage
(`Atoi` succeeds and the only range check is the `> 400` cap), yet with
`now` strictly after the base date the evaluation never returns any
result — no `k ≥ 1` with the claimed property exists and the search loop
never exits, refuting the claim as stated for "every interval accepted
by the parser". -/
theorem C2_daily_rule_counterexample :
    goAtoi "0" = some 0 ∧ ¬ MaxIntervalInDays < (0 : Int) ∧
    ¬ ∃ (r : Date) (fuel : Nat),
        calculateNextDate fuel 2024 ⟨⟨2024, 3, 11⟩, 0⟩ "20240310" "d 0" = some (.ok r) := by
  refine ⟨rfl, by norm_num [MaxIntervalInDays], ?_⟩
  rintro ⟨r, fuel, h⟩
  have heq : calculateNextDate fuel 2024 ⟨⟨2024, 3, 11⟩, 0⟩ "20240310" "d 0" =
      (loopIter (fun c => nowAfterB ⟨⟨2024, 3, 11⟩, 0⟩ c) (fun c => c.addDate 0 0 0) fuel
        ((⟨2024, 3, 10⟩ : Date).addDate 0 0 0)).map .ok := by
    rw [calcND_dispatch_d fuel 2024 ⟨⟨2024, 3, 11⟩, 0⟩ "20240310" "d 0" ⟨2024, 3, 10⟩
      ["0"] rfl rfl]
    rfl
  rw [heq, d0_loop_stuck fuel] at h
  exact absurd h (by simp)

/-- C2 (amended): Daily rule — for every `now` instant, valid base date,
and interval `d` with `1 ≤ d ≤ 400` (the parser additionally accepts
`d ≤ 0`, for which the claimed characterization fails, see the
counterexample), evaluating `"d <d>"` returns the base date advanced by
`k·d` days for the smallest `k ≥ 1` such that `now` is not strictly
after the candidate; the acceptance condition allows the result to equal
`now`'s date exactly (when `now` is at midnight), unlike Yearly. -/
theorem C2_daily_rule (wy : Int) (now : GoTime) (ds rs t : String) (rest : List String)
    (base : Date) (d : Int)
    (hparse : goParseDate ds = some base) (hvnow : now.date.Valid)
    (hsplit : goSplit rs ' ' = "d" :: t :: rest)
    (hatoi : goAtoi t = some d) (hd1 : 1 ≤ d) (hcap : d ≤ MaxIntervalInDays) :
    ∃ (r : Date) (k : Nat),
      (∃ fuel, calculateNextDate fuel wy now ds rs = some (.ok r)) ∧
      1 ≤ k ∧
      r = (fun c => c.addDate 0 0 d)^[k] base ∧
      toDays r = toDays base + k * d ∧
      nowAfterB now r = false ∧
      (nowAfterB now r = false ↔
        (toDays now.date < toDays r ∨ (toDays now.date = toDays r ∧ now.tod = 0))) ∧
      (∀ j : Nat, 1 ≤ j → j < k →
        nowAfterB now ((fun c => c.addDate 0 0 d)^[j] base) = true) := by
  have hvbase : base.Valid := goParseDate_valid ds base hparse
  have hvstart : (base.addDate 0 0 d).Valid := (addDate_days base d hvbase).1
  set N : Nat := (toDays now.date + 1 - toDays (base.addDate 0 0 d)).toNat with hN
  have hexit : ∃ kk : Nat, kk ≤ N ∧
      (fun c => nowAfterB now c) ((fun c : Date => c.addDate 0 0 d)^[kk]
        (base.addDate 0 0 d)) = false := by
    refine ⟨N, Nat.le_refl N, ?_⟩
    have hit := iterate_addDate_days d N (base.addDate 0 0 d) hvstart
    have hmul : (N : Int) * 1 ≤ (N : Int) * d := by
      apply mul_le_mul_of_nonneg_left hd1
      positivity
    have hone : (N : Int) * 1 = N := mul_one _
    rw [dayCond_false_iff]
    omega
  obtain ⟨r, hr⟩ := loopIter_exit (fun c => nowAfterB now c) (fun c => c.addDate 0 0 d)
    N (base.addDate 0 0 d) hexit
  obtain ⟨k0, hk0, hreq, hcond, hall⟩ := loopIter_some (fun c => nowAfterB now c)
    (fun c => c.addDate 0 0 d) N (base.addDate 0 0 d) r hr
  have hstart1 : base.addDate 0 0 d = (fun c : Date => c.addDate 0 0 d)^[1] base := rfl
  refine ⟨r, k0 + 1, ⟨N, ?_⟩, by omega, ?_, ?_, hcond, dayCond_false_iff now r, ?_⟩
  · rw [calcND_dispatch_d N wy now ds rs base (t :: rest) hparse hsplit]
    unfold calculateNextDateDay
    dsimp only
    rw [hatoi]
    dsimp only
    rw [if_neg (by omega), hr]
    rfl
  · rw [hreq, hstart1, ← Function.iterate_add_apply]
  · have hit := iterate_addDate_days d (k0 + 1) base hvbase
    rw [hreq, hstart1, ← Function.iterate_add_apply]
    rw [hit.2]
  · intro j hj1 hjk
    have hh := hall (j - 1) (by omega)
    have hgoal_eq : (fun c : Date => c.addDate 0 0 d)^[j] base =
        (fun c : Date => c.addDate 0 0 d)^[j - 1] (base.addDate 0 0 d) := by
      have h1 : j = (j - 1) + 1 := by omega
      conv_lhs => rw [h1]
      rw [Function.iterate_add_apply]
      rfl
    rw [hgoal_eq]
    exact hh

/-- C2 witness: the spec's tie example,
`Next(now = 2024-03-10, base = 2024-03-05, "d 5") = 2024-03-10` — the
result equals `now`'s date exactly. -/
theorem C2_daily_rule_witness :
    goParseDate "20240305" = some ⟨2024, 3, 5⟩ ∧
    (GoTime.mk ⟨2024, 3, 10⟩ 0).date.Valid ∧
    goSplit "d 5" ' ' = ["d", "5"] ∧ goAtoi "5" = some 5 ∧
    (1 : Int) ≤ 5 ∧ (5 : Int) ≤ MaxIntervalInDays ∧
    ∃ (r : Date) (k : Nat),
      (∃ fuel, calculateNextDate fuel 2024 ⟨⟨2024, 3, 10⟩, 0⟩ "20240305" "d 5" =
        some (.ok r)) ∧
      1 ≤ k ∧
      r = (fun c => c.addDate 0 0 5)^[k] (⟨2024, 3, 5⟩ : Date) ∧
      toDays r = toDays (⟨2024, 3, 5⟩ : Date) + k * 5 ∧
      nowAfterB ⟨⟨2024, 3, 10⟩, 0⟩ r = false ∧
      (nowAfterB ⟨⟨2024, 3, 10⟩, 0⟩ r = false ↔
        (toDays (⟨⟨2024, 3, 10⟩, 0⟩ : GoTime).date < toDays r ∨
          (toDays (⟨⟨2024, 3, 10⟩, 0⟩ : GoTime).date = toDays r ∧
            (⟨⟨2024, 3, 10⟩, 0⟩ : GoTime).tod = 0))) ∧
      (∀ j : Nat, 1 ≤ j → j < k →
        nowAfterB ⟨⟨2024, 3, 10⟩, 0⟩ ((fun c => c.addDate 0 0 5)^[j] (⟨2024, 3, 5⟩ : Date)) =
          true) :=
  ⟨rfl, by decide, rfl, rfl, by norm_num, by norm_num [MaxIntervalInDays],
    C2_daily_rule 2024 ⟨⟨2024, 3, 10⟩, 0⟩ "20240305" "d 5" "5" [] ⟨2024, 3, 5⟩ 5
      rfl (by decide) rfl rfl (by norm_num) (by norm_num [MaxIntervalInDays])⟩

/-- C3 counterexample: `"d 0"` is not rejected — `0` is outside `[1,400]`
yet parsing succeeds and (with `now` equal to the candidate) the
evaluation returns a date, refuting "every integer outside [1, 400] is
rejected with an error". -/
theorem C3_daily_parsing_counterexample :
    goAtoi "0" = some 0 ∧ (0 : Int) < 1 ∧
    calculateNextDate 0 2024 ⟨⟨2024, 3, 10⟩, 0⟩ "20240310" "d 0" =
      some (.ok ⟨2024, 3, 10⟩) :=
  ⟨rfl, by norm_num, by decide⟩

/-- C3 (amended): Daily parsing — a `"d"` rule fails with `NoInterval`
when the second token is missing, with a generic Atoi failure when it is
non-numeric, and with `MaxIntervalExceeded` when it parses greater than
400; any value `≤ 400` (including `0` and negatives, which are NOT
rejected) never produces an error; `"d 400"` succeeds and `"d 401"` is
rejected. -/
theorem C3_daily_parsing (wy : Int) (now : GoTime) (ds : String) (base : Date)
    (hparse : goParseDate ds = some base) :
    (∀ rs : String, goSplit rs ' ' = ["d"] →
       ∀ fuel, calculateNextDate fuel wy now ds rs = some (.err .noInterval)) ∧
    (∀ (rs t : String) (rest : List String), goSplit rs ' ' = "d" :: t :: rest →
       goAtoi t = none →
       ∀ fuel, calculateNextDate fuel wy now ds rs = some (.err .atoiError)) ∧
    (∀ (rs t : String) (rest : List String) (v : Int), goSplit rs ' ' = "d" :: t :: rest →
       goAtoi t = some v → MaxIntervalInDays < v →
       ∀ fuel, calculateNextDate fuel wy now ds rs = some (.err .maxIntervalExceeded)) ∧
    (∀ (rs t : String) (rest : List String) (v : Int), goSplit rs ' ' = "d" :: t :: rest →
       goAtoi t = some v → v ≤ MaxIntervalInDays →
       ∀ (fuel : Nat) (e : CalcErr), calculateNextDate fuel wy now ds rs ≠ some (.err e)) ∧
    (calculateNextDate 0 2024 ⟨⟨2024, 3, 10⟩, 0⟩ "20240310" "d 400" =
       some (.ok ⟨2025, 4, 14⟩) ∧
     calculateNextDate 0 2024 ⟨⟨2024, 3, 10⟩, 0⟩ "20240310" "d 401" =
       some (.err .maxIntervalExceeded)) := by
  refine ⟨?_, ?_, ?_, ?_, by decide, by decide⟩
  · intro rs hs fuel
    rw [calcND_dispatch_d fuel wy now ds rs base [] hparse hs]
    rfl
  · intro rs t rest hs hatoi fuel
    rw [calcND_dispatch_d fuel wy now ds rs base (t :: rest) hparse hs]
    unfold calculateNextDateDay
    dsimp only
    rw [hatoi]
  · intro rs t rest v hs hatoi hv fuel
    rw [calcND_dispatch_d fuel wy now ds rs base (t :: rest) hparse hs]
    unfold calculateNextDateDay
    dsimp only
    rw [hatoi]
    dsimp only
    rw [if_pos hv]
  · intro rs t rest v hs hatoi hv fuel e
    rw [calcND_dispatch_d fuel wy now ds rs base (t :: rest) hparse hs]
    unfold calculateNextDateDay
    dsimp only
    rw [hatoi]
    dsimp only
    rw [if_neg (by omega)]
    cases hl : loopIter (fun c => nowAfterB now c) (fun c => c.addDate 0 0 v) fuel
        (base.addDate 0 0 v) <;> simp

/-- C3 witness: `"d 401"` is rejected with `MaxIntervalExceeded`, by the
third part of the amended claim. -/
theorem C3_daily_parsing_witness :
    goParseDate "20240310" = some ⟨2024, 3, 10⟩ ∧
    goSplit "d 401" ' ' = ["d", "401"] ∧
    goAtoi "401" = some 401 ∧ MaxIntervalInDays < (401 : Int) ∧
    calculateNextDate 5 2024 ⟨⟨2024, 3, 10⟩, 0⟩ "20240310" "d 401" =
      some (.err .maxIntervalExceeded) :=
  ⟨rfl, rfl, rfl, by norm_num [MaxIntervalInDays],
    (C3_daily_parsing 2024 ⟨⟨2024, 3, 10⟩, 0⟩ "20240310" ⟨2024, 3, 10⟩ rfl).2.2.1
      "d 401" "401" [] 401 rfl rfl (by norm_num [MaxIntervalInDays]) 5⟩

/-- C4: Weekly rule — the result is the first calendar date, scanning one
day at a time from `now`'s date + 1, whose ISO weekday (1=Monday…7=Sunday)
belongs to the rule's weekday set; it is never `now`'s own date or
anything at/before it; and it is independent of the base date (two calls
differing only in the base-date string return the same result). -/
theorem C4_weekly_rule :
    (∀ (wy : Int) (now : GoTime) (ds rs t : String) (rest : List String) (base : Date)
        (ws : List Int),
        goParseDate ds = some base → now.date.Valid →
        goSplit rs ' ' = "w" :: t :: rest →
        extIntParams t 1 DaysInWeek = .ok ws → ws ≠ [] →
        ∃ (r : Date) (j : Nat),
          (∃ fuel, calculateNextDate fuel wy now ds rs = some (.ok r)) ∧
          1 ≤ j ∧ j ≤ 7 ∧
          r = (fun c => c.addDate 0 0 1)^[j] now.date ∧
          toDays now.date < toDays r ∧
          isoWeekday r ∈ ws ∧
          (∀ i : Nat, 1 ≤ i → i < j →
            isoWeekday ((fun c => c.addDate 0 0 1)^[i] now.date) ∉ ws)) ∧
    (∀ (fuel : Nat) (wy : Int) (now : GoTime) (ds1 ds2 rs : String) (b1 b2 : Date)
        (rest : List String),
        goParseDate ds1 = some b1 → goParseDate ds2 = some b2 →
        goSplit rs ' ' = "w" :: rest →
        calculateNextDate fuel wy now ds1 rs = calculateNextDate fuel wy now ds2 rs) := by
  constructor
  · intro wy now ds rs t rest base ws hparse hvnow hsplit hok hne
    obtain ⟨r, j, ⟨fuel, hfuel⟩, hj1, hj7, hreq, htD, hiso, hmin⟩ :=
      weekly_char now t rest ws hok hne hvnow
    refine ⟨r, j, ⟨fuel, ?_⟩, hj1, hj7, hreq, by omega, hiso, hmin⟩
    rw [calcND_dispatch_w fuel wy now ds rs base (t :: rest) hparse hsplit]
    exact hfuel
  · intro fuel wy now ds1 ds2 rs b1 b2 rest h1 h2 hs
    rw [calcND_dispatch_w fuel wy now ds1 rs b1 rest h1 hs,
        calcND_dispatch_w fuel wy now ds2 rs b2 rest h2 hs]

/-- C4 witness: the spec's example — `now` = 2024-03-06 (a Wednesday),
rule `"w 1,3"`; the search starts at `now + 1` and the characterization
applies with the weekday set `[1, 3]`. -/
theorem C4_weekly_rule_witness :
    goParseDate "20240101" = some ⟨2024, 1, 1⟩ ∧
    (GoTime.mk ⟨2024, 3, 6⟩ 0).date.Valid ∧
    goSplit "w 1,3" ' ' = ["w", "1,3"] ∧
    extIntParams "1,3" 1 DaysInWeek = .ok [1, 3] ∧ ([1, 3] : List Int) ≠ [] ∧
    ∃ (r : Date) (j : Nat),
      (∃ fuel, calculateNextDate fuel 2024 ⟨⟨2024, 3, 6⟩, 0⟩ "20240101" "w 1,3" =
        some (.ok r)) ∧
      1 ≤ j ∧ j ≤ 7 ∧
      r = (fun c => c.addDate 0 0 1)^[j] (⟨⟨2024, 3, 6⟩, 0⟩ : GoTime).date ∧
      toDays (⟨⟨2024, 3, 6⟩, 0⟩ : GoTime).date < toDays r ∧
      isoWeekday r ∈ [(1 : Int), 3] ∧
      (∀ i : Nat, 1 ≤ i → i < j →
        isoWeekday ((fun c => c.addDate 0 0 1)^[i] (⟨⟨2024, 3, 6⟩, 0⟩ : GoTime).date) ∉
          [(1 : Int), 3]) :=
  ⟨rfl, by decide, rfl, rfl, by decide,
    C4_weekly_rule.1 2024 ⟨⟨2024, 3, 6⟩, 0⟩ "20240101" "w 1,3" "1,3" [] ⟨2024, 1, 1⟩
      [1, 3] rfl (by decide) rfl rfl (by decide)⟩

/-- C9: (code bug) the claim "every calculation call terminates for every
rule string accepted by the parser" fails: `"d 0"` passes every check of
`calculateNextDateDay` (only the `> 400` cap is enforced), and with
`now` after the base date the search loop `for now.After(currDate)`
advances by zero days forever — for no amount of fuel does the embedded
loop exit. -/
theorem C9_daily_divergence :
    ∀ fuel : Nat,
      calculateNextDate fuel 2024 ⟨⟨2024, 3, 11⟩, 0⟩ "20240310" "d 0" = none := by
  intro fuel
  rw [calcND_dispatch_d fuel 2024 ⟨⟨2024, 3, 11⟩, 0⟩ "20240310" "d 0" ⟨2024, 3, 10⟩
    ["0"] rfl rfl]
  have heq : calculateNextDateDay fuel ⟨⟨2024, 3, 11⟩, 0⟩ ⟨2024, 3, 10⟩ ["d", "0"] =
      (loopIter (fun c => nowAfterB ⟨⟨2024, 3, 11⟩, 0⟩ c) (fun c => c.addDate 0 0 0) fuel
        ((⟨2024, 3, 10⟩ : Date).addDate 0 0 0)).map .ok := rfl
  rw [heq, d0_loop_stuck fuel]
  rfl

/-- C10: Weekly result is at most seven days ahead — for every `now`
instant and every non-empty weekday set with elements in `[1,7]`, the
result lies in the window `(now's date, now's date + 7]`. -/
theorem C10_weekly_window (wy : Int) (now : GoTime) (ds rs t : String)
    (rest : List String) (base : Date) (ws : List Int)
    (hparse : goParseDate ds = some base) (hvnow : now.date.Valid)
    (hsplit : goSplit rs ' ' = "w" :: t :: rest)
    (hok : extIntParams t 1 DaysInWeek = .ok ws) (hne : ws ≠ []) :
    ∃ r : Date,
      (∃ fuel, calculateNextDate fuel wy now ds rs = some (.ok r)) ∧
      toDays now.date < toDays r ∧ toDays r ≤ toDays now.date + 7 := by
  obtain ⟨r, j, ⟨fuel, hfuel⟩, hj1, hj7, _, htD, _, _⟩ :=
    weekly_char now t rest ws hok hne hvnow
  refine ⟨r, ⟨fuel, ?_⟩, by omega, by omega⟩
  rw [calcND_dispatch_w fuel wy now ds rs base (t :: rest) hparse hsplit]
  exact hfuel

/-- C10 witness: the window property at `now` = 2024-03-06, rule
`"w 7"` (next Sunday). -/
theorem C10_weekly_window_witness :
    goParseDate "20240101" = some ⟨2024, 1, 1⟩ ∧
    (GoTime.mk ⟨2024, 3, 6⟩ 0).date.Valid ∧
    goSplit "w 7" ' ' = ["w", "7"] ∧
    extIntParams "7" 1 DaysInWeek = .ok [7] ∧ ([7] : List Int) ≠ [] ∧
    ∃ r : Date,
      (∃ fuel, calculateNextDate fuel 2024 ⟨⟨2024, 3, 6⟩, 0⟩ "20240101" "w 7" =
        some (.ok r)) ∧
      toDays (⟨⟨2024, 3, 6⟩, 0⟩ : GoTime).date < toDays r ∧
      toDays r ≤ toDays (⟨⟨2024, 3, 6⟩, 0⟩ : GoTime).date + 7 :=
  ⟨rfl, by decide, rfl, rfl, by decide,
    C10_weekly_window 2024 ⟨⟨2024, 3, 6⟩, 0⟩ "20240101" "w 7" "7" [] ⟨2024, 1, 1⟩ [7]
      rfl (by decide) rfl rfl (by decide)⟩

/-! ## Candidate computation lemmas -/

lemma candAt_neg (wy m d : Int) (hd : -2 ≤ d) (hdneg : d < 0) :
    candAt wy d m =
      some ⟨normY wy m, normM m, daysIn (normY wy m) (normM m) + d + 1⟩ := by
  have hlen := buildDateMap_len wy m
  have hdb := daysIn_bounds (normY wy m) (normM m)
  unfold candAt
  dsimp only
  rw [if_neg (by omega), if_pos hdneg, if_neg (by omega)]
  rw [buildDateMap_get wy m (((buildDateMap wy m).length : Int) + d).toNat (by omega)]
  have hcast : ((((buildDateMap wy m).length : Int) + d).toNat : Int) + 1 =
      daysIn (normY wy m) (normM m) + d + 1 := by omega
  rw [hcast]

lemma candAt_pos_in (wy m d : Int) (hd1 : 1 ≤ d)
    (hdle : d ≤ daysIn (normY wy m) (normM m)) :
    candAt wy d m = some ⟨normY wy m, normM m, d⟩ := by
  have hlen := buildDateMap_len wy m
  have hdb := daysIn_bounds (normY wy m) (normM m)
  unfold candAt
  dsimp only
  rw [if_neg (by omega), if_neg (by omega), if_neg (by omega)]
  rw [buildDateMap_get wy m (d - 1).toNat (by omega)]
  have hcast : (((d - 1).toNat : Int)) + 1 = d := by omega
  rw [hcast]

lemma candAt_pos_skip (wy m d : Int) (hgt : daysIn (normY wy m) (normM m) < d) :
    candAt wy d m = none := by
  have hlen := buildDateMap_len wy m
  unfold candAt
  dsimp only
  rw [if_pos (by omega)]

lemma monthProbe_skip (now : GoTime) (dm : Int → List Date) (d m : Int) (ms : List Int)
    (h : ((dm m).length : Int) ≤ d - 1) :
    monthProbe now dm d (m :: ms) = monthProbe now dm d ms := by
  simp only [monthProbe]
  rw [if_pos h]

/-- C6: Monthly end-of-month semantics — within each probed month (whose
day list has exactly as many entries as the month has days), day value
−1 denotes the month's last day and −2 its second-to-last day (for the
28-day February of 2023, rule day −1 yields the 28th); a positive day
value exceeding the month length produces no candidate — the (day,
month) pair is skipped and the inner search proceeds with the next
month (e.g. day 31 against 30-day April). -/
theorem C6_monthly_eom :
    (∀ wy m : Int,
      ((buildDateMap wy m).length : Int) = daysIn (normY wy m) (normM m) ∧
      candAt wy (-1) m =
        some ⟨normY wy m, normM m, daysIn (normY wy m) (normM m)⟩ ∧
      candAt wy (-2) m =
        some ⟨normY wy m, normM m, daysIn (normY wy m) (normM m) - 1⟩ ∧
      (∀ d : Int, daysIn (normY wy m) (normM m) < d → candAt wy d m = none) ∧
      (∀ d : Int, 1 ≤ d → d ≤ daysIn (normY wy m) (normM m) →
        candAt wy d m = some ⟨normY wy m, normM m, d⟩)) ∧
    (∀ (now : GoTime) (dm : Int → List Date) (d m : Int) (ms : List Int),
      ((dm m).length : Int) ≤ d - 1 →
      monthProbe now dm d (m :: ms) = monthProbe now dm d ms) ∧
    (isLeap 2023 = false ∧ daysIn 2023 2 = 28 ∧
      candAt 2023 (-1) 2 = some ⟨2023, 2, 28⟩) ∧
    (daysIn 2024 4 = 30 ∧ candAt 2024 31 4 = none) := by
  refine ⟨?_, monthProbe_skip, ⟨by decide, by decide, ?_⟩, by decide, ?_⟩
  · intro wy m
    refine ⟨buildDateMap_len wy m, ?_, ?_, ?_, fun d h1 h2 => candAt_pos_in wy m d h1 h2⟩
    · rw [candAt_neg wy m (-1) (by norm_num) (by norm_num)]
      have h : daysIn (normY wy m) (normM m) + -1 + 1 = daysIn (normY wy m) (normM m) := by
        ring
      rw [h]
    · rw [candAt_neg wy m (-2) (by norm_num) (by norm_num)]
      have h : daysIn (normY wy m) (normM m) + -2 + 1 =
          daysIn (normY wy m) (normM m) - 1 := by ring
      rw [h]
    · exact fun d h => candAt_pos_skip wy m d h
  · have h1 : normY 2023 2 = 2023 := by norm_num [normY]
    have h2 : normM 2 = 2 := by norm_num [normM]
    have h3 : daysIn 2023 2 = 28 := by decide
    have := candAt_neg 2023 2 (-1) (by norm_num) (by norm_num)
    rw [h1, h2, h3] at this
    rw [this]
    norm_num
  · have h1 : normY 2024 4 = 2024 := by norm_num [normY]
    have h2 : normM 4 = 4 := by norm_num [normM]
    have h3 : daysIn 2024 4 = 30 := by decide
    have := candAt_pos_skip 2024 4 31 (by rw [h1, h2, h3]; norm_num)
    exact this

set_option maxRecDepth 40000 in
/-- C6 witness: the skip step applied at 30-day April 2024 with day
value 31. -/
theorem C6_monthly_eom_witness :
    ((buildDateMap 2024 4).length : Int) ≤ 31 - 1 ∧
    monthProbe ⟨⟨2024, 3, 10⟩, 0⟩ (buildDateMap 2024) 31 [4, 6] =
      monthProbe ⟨⟨2024, 3, 10⟩, 0⟩ (buildDateMap 2024) 31 [6] :=
  ⟨by decide,
    C6_monthly_eom.2.1 ⟨⟨2024, 3, 10⟩, 0⟩ (buildDateMap 2024) 31 4 [6] (by decide)⟩

set_option maxRecDepth 40000 in
/-- C7: (code bug) the rule `"m 0"` defeats the safety claim: the range
check from −2 to 31 admits the day value 0, the `len(days) <= d-1` guard
does not fire for it, and the non-negative branch indexes `days[-1]` —
a Go runtime panic (index out of range), not a named error. -/
theorem C7_panic_on_m0 :
    extIntParams "0" (-2) MaxDaysInMonth = .ok [0] ∧
    calculateNextDate 0 2024 ⟨⟨2024, 3, 10⟩, 0⟩ "20240310" "m 0" = some .panicked :=
  ⟨rfl, by decide⟩

set_option maxRecDepth 40000 in
/-- C8: (code bug) `buildDateMap` reads `time.Now().Year()` — the wall
clock, not the `now` argument — so two runs with identical
`(now, date, repeat)` inputs return different results when the ambient
year differs: the pipeline is not a pure function of its three inputs. -/
theorem C8_wall_clock_dependence :
    calculateNextDate 0 2024 ⟨⟨2024, 1, 31⟩, 0⟩ "20240101" "m 31" =
      some (.ok ⟨2024, 1, 31⟩) ∧
    calculateNextDate 0 2025 ⟨⟨2024, 1, 31⟩, 0⟩ "20240101" "m 31" =
      some (.ok ⟨2025, 1, 31⟩) ∧
    Outcome.ok (⟨2024, 1, 31⟩ : Date) ≠ Outcome.ok (⟨2025, 1, 31⟩ : Date) :=
  ⟨by decide, by decide, by decide⟩

/-- C5: Monthly probe order — `sortDayParams` puts all non-negative day
values first in ascending order, then the negatives ascending (−2 before
−1); explicit month lists are sorted ascending; the Monthly search
returns the first probed candidate accepted by the `now ≤ candidate`
test, probing day-major over the sorted days and, per day, the months in
list order — stated as an equality with `find?` over the flattened probe
list for both rule forms; at a midnight `now`, acceptance is exactly
"candidate ≥ now's date"; and on rule `"m 5,-1"` with both the day-5 and
last-day candidates of the month ≥ `now`, day 5 is returned in
preference to the last day. -/
theorem C5_monthly_probe_order :
    (∀ l : List Int, (sortDayParams l).Perm l ∧ (sortDayParams l).Pairwise dayOrd) ∧
    (∀ l : List Int, (sortInts l).Perm l ∧ (sortInts l).Pairwise (· ≤ ·)) ∧
    (∀ (wy : Int) (now : GoTime) (base : Date) (p1 p2 : String) (ds0 ms0 : List Int),
      extIntParams p1 (-2) MaxDaysInMonth = .ok ds0 →
      (∀ d ∈ ds0, d ≠ 0) →
      extIntParams p2 1 MonthsInYear = .ok ms0 →
      calculateNextDateMonth now base wy ["m", p1, p2] =
        (match ((sortDayParams ds0).flatMap
            (fun d => (sortInts ms0).filterMap (fun m => candAt wy d m))).find?
            (fun c => acceptB now c) with
         | some c => .ok c
         | none => .err .dateCalculation)) ∧
    (∀ (wy : Int) (now : GoTime) (base : Date) (p1 : String) (ds0 : List Int),
      extIntParams p1 (-2) MaxDaysInMonth = .ok ds0 →
      (∀ d ∈ ds0, d ≠ 0) →
      calculateNextDateMonth now base wy ["m", p1] =
        (match ((sortDayParams ds0).flatMap
            (fun d => ((if nowBeforeB now base then [base.month, base.month + 1]
                        else [now.date.month, now.date.month + 1]).filterMap
                 (fun m => candAt wy d m)))).find? (fun c => acceptB now c) with
         | some c => .ok c
         | none => .err .dateCalculation)) ∧
    (∀ (now : GoTime) (c : Date), now.tod = 0 →
      (acceptB now c = true ↔ toDays now.date ≤ toDays c)) ∧
    (calculateNextDate 0 2024 ⟨⟨2024, 3, 1⟩, 0⟩ "20240301" "m 5,-1" =
        some (.ok ⟨2024, 3, 5⟩) ∧
      candAt 2024 (-1) 3 = some ⟨2024, 3, 31⟩ ∧
      acceptB ⟨⟨2024, 3, 1⟩, 0⟩ ⟨2024, 3, 31⟩ = true) := by
  refine ⟨?_, ?_, ?_, ?_, acceptB_iff_of_midnight, by decide, ?_, by decide⟩
  · exact fun l => ⟨sortDayParams_perm l, sortDayParams_pairwise l⟩
  · exact fun l => ⟨sortInts_perm l, sortInts_pairwise l⟩
  · intro wy now base p1 p2 ds0 ms0 hok1 hd0 hok2
    have hrange := extIntParams_range p1 (-2) MaxDaysInMonth ds0 hok1
    unfold calculateNextDateMonth
    dsimp only
    rw [hok1]
    dsimp only
    rw [if_pos (show (["m", p1, p2] : List String).length = 3 by rfl)]
    rw [show (["m", p1, p2] : List String).getD 2 "" = p2 from rfl]
    rw [hok2]
    dsimp only
    apply monthOuter_eq
    intro d hd
    have hmem : d ∈ ds0 := (sortDayParams_perm ds0).mem_iff.mp hd
    exact ⟨(hrange d hmem).1, hd0 d hmem⟩
  · intro wy now base p1 ds0 hok1 hd0
    have hrange := extIntParams_range p1 (-2) MaxDaysInMonth ds0 hok1
    unfold calculateNextDateMonth
    dsimp only
    rw [hok1]
    dsimp only
    rw [if_neg (show ¬ (["m", p1] : List String).length = 3 by simp)]
    dsimp only
    apply monthOuter_eq
    intro d hd
    have hmem : d ∈ ds0 := (sortDayParams_perm ds0).mem_iff.mp hd
    exact ⟨(hrange d hmem).1, hd0 d hmem⟩
  · have h1 : normY 2024 3 = 2024 := by norm_num [normY]
    have h2 : normM 3 = 3 := by norm_num [normM]
    have h3 : daysIn 2024 3 = 31 := by decide
    have := candAt_neg 2024 3 (-1) (by norm_num) (by norm_num)
    rw [h1, h2, h3] at this
    rw [this]
    norm_num

set_option maxRecDepth 40000 in
/-- C5 witness: the 3-token probe-order equality applied to the rule
`"m 5,-1 3"` (day values 5 and −1, month 3). -/
theorem C5_monthly_probe_order_witness :
    extIntParams "5,-1" (-2) MaxDaysInMonth = .ok [5, -1] ∧
    (∀ d ∈ ([5, -1] : List Int), d ≠ 0) ∧
    extIntParams "3" 1 MonthsInYear = .ok [3] ∧
    calculateNextDateMonth ⟨⟨2024, 3, 1⟩, 0⟩ ⟨2024, 3, 1⟩ 2024 ["m", "5,-1", "3"] =
      (match ((sortDayParams [5, -1]).flatMap
          (fun d => (sortInts [3]).filterMap (fun m => candAt 2024 d m))).find?
          (fun c => acceptB ⟨⟨2024, 3, 1⟩, 0⟩ c) with
       | some c => .ok c
       | none => .err .dateCalculation) :=
  ⟨rfl, by decide, rfl,
    C5_monthly_probe_order.2.2.1 2024 ⟨⟨2024, 3, 1⟩, 0⟩ ⟨2024, 3, 1⟩ "5,-1" "3"
      [5, -1] [3] rfl (by decide) rfl⟩

end TaskUsecase
